import Mathlib

/-!
Shallow embedding of the Schrödinger's-cats claim/doubt game
(`src/schcats/cards.py`, `src/sch_cats/rules.py`, `src/schcats/state.py`,
`src/schcats/env.py`, `src/schcats/agents/tom0_memory.py`,
`src/schcats/agents/tom1.py`) together with proofs about the rule engine,
the state machine and the agents' probabilistic inference.

Modelling conventions:
* Python `int` is embedded as `ℤ` (as `ℕ` where the source can only ever
  hold a non-negative value, e.g. list lengths, round indices, scores).
* Python `float` arithmetic on probabilities is embedded as exact `ℚ`
  arithmetic on the literal values appearing in the source.
* A Python method that mutates `self` and may `raise` is embedded as a
  function returning the updated state together with an
  `Except String` result; at each `raise`/failed `assert` the state built
  up to that program point is returned with the error.
* The deck produced by the external shuffling collaborator `make_deck`
  (a black box per the design) is passed to the state machine as an
  explicit argument.
-/

namespace SchCats

/-- `Card` enum from `cards.py`: three claimable categories plus the
wildcard `HUP`. -/
inductive Card where
  | ALIVE
  | DEAD
  | EMPTY
  | HUP
deriving DecidableEq, Repr

/-- The Python enum value string of a card. -/
def Card.value : Card → String
  | .ALIVE => "alive"
  | .DEAD => "dead"
  | .EMPTY => "empty"
  | .HUP => "hup"

/-- `QState` enum from `rules.py`: the claimable categories. -/
inductive QState where
  | ALIVE
  | DEAD
  | EMPTY
deriving DecidableEq, Repr

/-- The Python enum value string of a claimable category. -/
def QState.value : QState → String
  | .ALIVE => "alive"
  | .DEAD => "dead"
  | .EMPTY => "empty"

/-- `Claim` dataclass from `rules.py`: a (quantity, category) pair. -/
structure Claim where
  qty : ℤ
  qstate : QState
deriving DecidableEq, Repr

/-- `claim_strength` from `rules.py`: `(effective, tier)` comparison key.
`EMPTY` counts double (effective `2 * qty`, tier `2`); `ALIVE` has tier `1`;
`DEAD` has tier `0`. -/
def claim_strength (c : Claim) : ℤ × ℕ :=
  match c.qstate with
  | .EMPTY => (2 * c.qty, 2)
  | .ALIVE => (c.qty, 1)
  | .DEAD => (c.qty, 0)

/-- Python lexicographic `>` on the `(effective, tier)` tuples. -/
def tupGt (a b : ℤ × ℕ) : Bool :=
  b.1 < a.1 || (a.1 == b.1 && b.2 < a.2)

/-- `is_stronger` from `rules.py`. -/
def is_stronger (new old : Claim) : Bool :=
  tupGt (claim_strength new) (claim_strength old)

/-- `check_claim_is_true` from `rules.py`: with both hands visible, count
the cards equal to the claimed category (`cnt_target`, the `elif` branch
of the loop) and the `HUP` wildcards (`cnt_hup`); the claim holds iff
`cnt_target + cnt_hup >= claim.qty`. -/
def check_claim_is_true (claim : Claim) (all_hands : List (List Card)) : Bool :=
  let needed := claim.qty
  let target := claim.qstate.value
  let cnt_target :=
    (all_hands.map (fun hand =>
      hand.countP (fun card => !(card == Card.HUP) && card.value == target))).sum
  let cnt_hup :=
    (all_hands.map (fun hand => hand.countP (fun card => card == Card.HUP))).sum
  decide ((cnt_target : ℤ) + (cnt_hup : ℤ) ≥ needed)

/-- The card carrying a claimable category (used only on the
specification side of theorems, to phrase "a card matching the claimed
category"). -/
def claimCard : QState → Card
  | .ALIVE => Card.ALIVE
  | .DEAD => Card.DEAD
  | .EMPTY => Card.EMPTY

/-- Specification-side support count of a claim over a set of hands:
cards of the matching category plus wildcards. -/
def specSupport (q : QState) (all_hands : List (List Card)) : ℕ :=
  (all_hands.map (fun hand =>
    hand.countP (fun card => card == claimCard q || card == Card.HUP))).sum

/-! ## State model (`state.py`) and environment (`env.py`) -/

/-- Per-player container: the environment only ever uses player ids `0`
and `1` (Python stores a two-element list or a `{0: _, 1: _}` dict). -/
structure Pair (α : Type) where
  p0 : α
  p1 : α
deriving DecidableEq, Repr

/-- Read the entry of player `i` (the source only ever passes `0` or `1`). -/
def Pair.get {α : Type} (m : Pair α) (i : ℕ) : α :=
  if i = 0 then m.p0 else m.p1

/-- Write the entry of player `i`. -/
def Pair.put {α : Type} (m : Pair α) (i : ℕ) (v : α) : Pair α :=
  if i = 0 then { m with p0 := v } else { m with p1 := v }

/-- `PublicEvent` dataclass from `state.py`. -/
structure PublicEvent where
  pid : ℕ
  kind : String
  claim : Option Claim
  revealed_count : ℕ
deriving DecidableEq, Repr

/-- `PublicState` dataclass from `state.py`: note that `revealed` maps
each player id to a *list* of revealed cards. -/
structure PublicState where
  current_claim : Option Claim
  revealed : Pair (List Card)
  turn : ℕ
  round_idx : ℕ
  history : List PublicEvent
deriving DecidableEq, Repr

/-- `Observation` dataclass from `state.py`. -/
structure Observation where
  my_id : ℕ
  my_hand : List Card
  public : PublicState
deriving DecidableEq, Repr

/-- `Action` hierarchy from `env.py`.  `other` stands for an instance of
an `Action` subclass the state machine does not recognise (the final
`raise ValueError("Unknown action type.")` branch). -/
inductive Action where
  | makeClaim (claim : Claim) (reveal_idxs : List ℤ)
  | doubt
  | other
deriving DecidableEq, Repr

/-- The mutable fields of `SchCatsEnv` (the `rng` is externalised: decks
are passed to the transition functions as explicit arguments). -/
structure EnvState where
  rounds_per_match : ℕ
  hands : Pair (List Card)
  public : Option PublicState
  scores : Pair ℕ
  last_round_public : Option PublicState
  last_round_hands : Option (Pair (List Card))
deriving DecidableEq, Repr

/-- `SchCatsEnv.__init__`. -/
def initEnv (rounds_per_match : ℕ) : EnvState :=
  { rounds_per_match := rounds_per_match
    hands := ⟨[], []⟩
    public := none
    scores := ⟨0, 0⟩
    last_round_public := none
    last_round_hands := none }

/-- `SchCatsEnv.reset_round`: deal `deck[:6]` and `deck[6:12]`, fresh
public state with no claim, no evidence, empty history. -/
def reset_round (env : EnvState) (deck : List Card) (round_idx : ℕ)
    (starting_player : ℕ) : EnvState :=
  { env with
    hands := ⟨deck.take 6, (deck.drop 6).take 6⟩
    public := some
      { current_claim := none
        revealed := ⟨[], []⟩
        turn := starting_player
        round_idx := round_idx
        history := [] } }

/-- `SchCatsEnv.reset_match`: zero the scores, clear the snapshot, start
round `0` with player `0`. -/
def reset_match (env : EnvState) (deck : List Card) : EnvState :=
  reset_round
    { env with scores := ⟨0, 0⟩, last_round_public := none, last_round_hands := none }
    deck 0 0

/-- `SchCatsEnv._obs`: the observation handed to player `pid` — its own
hand plus the public state (`none` models the failed assertion when no
round is live). -/
def envObs (env : EnvState) (pid : ℕ) : Option Observation :=
  env.public.map fun pub => { my_id := pid, my_hand := env.hands.get pid, public := pub }

/-- `SchCatsEnv.last_round_obs`. -/
def last_round_obs (env : EnvState) (pid : ℕ) : Option Observation :=
  match env.last_round_public, env.last_round_hands with
  | some pub, some hands => some { my_id := pid, my_hand := hands.get pid, public := pub }
  | _, _ => none

/-- `SchCatsEnv._snapshot_finished_round`: store a copy of the hands and
of the live public state (the Python deep-ish copies are the identity
under value semantics). -/
def snapshot_finished_round (env : EnvState) (pub : PublicState) : EnvState :=
  { env with last_round_hands := some env.hands, last_round_public := some pub }

/-- The reveal `for` loop inside `SchCatsEnv.step`'s `MakeClaim` branch:
walks the requested indices, raises on an out-of-range index, silently
skips an index whose card is already `in` the claimant's public evidence
(`already`), raises on a non-supporting card, and otherwise collects the
card.  The bounds test guards the `getD`, whose default is never used. -/
def revealLoop (hand : List Card) (already : List Card) (target : String) :
    List ℤ → Except String (List Card)
  | [] => Except.ok []
  | idx :: rest =>
    if idx < 0 ∨ (hand.length : ℤ) ≤ idx then Except.error "Bad reveal index."
    else
      let card := hand.getD idx.toNat Card.HUP
      if card ∈ already then revealLoop hand already target rest
      else if ¬ (card = Card.HUP ∨ card.value = target) then
        Except.error "Revealed card does not support claim."
      else
        match revealLoop hand already target rest with
        | Except.error msg => Except.error msg
        | Except.ok cs => Except.ok (card :: cs)

/-- `SchCatsEnv.step`.  Returns the updated environment together with
either the Python return value `(winner_or_none, match_done)` or the
message of the exception raised; on an exception the environment as
mutated up to the raising program point is returned (the source raises
before performing any mutation). -/
def step (env : EnvState) (nextDeck : List Card) (pid : ℕ) (action : Action) :
    EnvState × Except String (Option ℕ × Bool) :=
  match env.public with
  | none => (env, Except.error "public is None")
  | some pub =>
    if pid ≠ pub.turn then (env, Except.error "Not your turn.")
    else
      match action with
      | Action.doubt =>
        match pub.current_claim with
        | none => (env, Except.error "Cannot doubt before any claim.")
        | some claim =>
          let pub1 : PublicState :=
            { pub with history := pub.history ++
                [{ pid := pid, kind := "doubt", claim := some claim, revealed_count := 0 }] }
          let truth := check_claim_is_true claim [env.hands.p0, env.hands.p1]
          let claimant := 1 - pid
          let winner := if truth then claimant else pid
          let env1 : EnvState :=
            { env with public := some pub1
                       scores := env.scores.put winner (env.scores.get winner + 1) }
          let env2 := snapshot_finished_round env1 pub1
          let next_round := pub1.round_idx + 1
          if env.rounds_per_match ≤ next_round then
            (env2, Except.ok (some winner, true))
          else
            (reset_round env2 nextDeck next_round (next_round % 2),
             Except.ok (some winner, false))
      | Action.makeClaim claim reveal_idxs =>
        let notStronger : Bool :=
          match pub.current_claim with
          | some cur => ! is_stronger claim cur
          | none => false
        if notStronger then (env, Except.error "Claim not stronger than current claim.")
        else
          match revealLoop (env.hands.get pid) (pub.revealed.get pid)
              claim.qstate.value reveal_idxs with
          | Except.error msg => (env, Except.error msg)
          | Except.ok revealed_cards =>
            let pub1 : PublicState :=
              { pub with
                history := pub.history ++
                  [{ pid := pid, kind := "claim", claim := some claim,
                     revealed_count := revealed_cards.length }]
                revealed := pub.revealed.put pid (pub.revealed.get pid ++ revealed_cards)
                current_claim := some claim
                turn := 1 - pid }
            ({ env with public := some pub1 }, Except.ok (none, false))
      | Action.other => (env, Except.error "Unknown action type.")

/-- The states a match can be in: the freshly reset match, plus anything
`step` produces from a reachable state (for any deck the external
shuffler may supply for the next round). -/
inductive Reachable : EnvState → Prop where
  | init (rounds_per_match : ℕ) (deck : List Card) :
      Reachable (reset_match (initEnv rounds_per_match) deck)
  | next (env : EnvState) (deck : List Card) (pid : ℕ) (a : Action)
      (h : Reachable env) :
      Reachable (step env deck pid a).1

/-! ## Agents (`agents/tom0_memory.py`, `agents/tom1.py`)

Both agent classes carry the same class constants `DECK_COUNTS`,
`DECK_SIZE = 52`, `HAND_SIZE = 6` and textually identical
`_nCk`/`_hypergeom_p_geq` helpers; they are embedded once. -/

/-- `_nCk` (a guarded `math.comb`): `0` when `k < 0` or `k > n`. -/
def nCk (n k : ℤ) : ℕ :=
  if k < 0 ∨ n < k then 0 else Nat.choose n.toNat k.toNat

/-- `_hypergeom_p_geq`: `P(X ≥ kmin)` for `X ~ Hypergeom(N, K, n)`,
accumulated term by term as `C(K,k)·C(N−K,n−k)/C(N,n)` for
`k = kmin, …, n`. -/
def hypergeom_p_geq (N K n kmin : ℤ) : ℚ :=
  if kmin ≤ 0 then 1
  else if n < kmin then 0
  else
    let denom := nCk N n
    if denom = 0 then 0
    else ∑ k ∈ Finset.Icc kmin.toNat n.toNat,
      ((nCk K k : ℚ) * (nCk (N - K) ((n : ℤ) - k) : ℚ)) / (denom : ℚ)

/-- `_support_counts_in_known` / `_support_in_cards`: how many of the
given cards support category `q` (cards of `q` plus `HUP`). -/
def support_in_cards (cards : List Card) (q : QState) : ℕ :=
  cards.countP (fun c => c == Card.HUP || c.value == q.value)

/-- `_deck_support_total`: deck-wide supporting cards for `q`
(`DECK_COUNTS[q] + DECK_COUNTS[HUP]`). -/
def deck_support_total (q : QState) : ℤ :=
  match q with
  | .ALIVE => 20 + 4
  | .DEAD => 20 + 4
  | .EMPTY => 8 + 4

/-- The body of `_prob_claim_true` / `_prob_claim_true_my_view` *after*
the opponent's revealed cards have been extracted from the observation:
known cards are own hand plus opponent evidence, unknowns are the
opponent's remaining hand slots, and the result is the exact upper-tail
hypergeometric mass (or the early-exit constants `1.0` / `0.0`). -/
def probClaimTrueCore (my_hand opp_revealed_cards : List Card) (claim : Claim) : ℚ :=
  let known := my_hand ++ opp_revealed_cards
  let known_support : ℤ := support_in_cards known claim.qstate
  let remaining_needed : ℤ := claim.qty - known_support
  if remaining_needed ≤ 0 then 1
  else
    let n_unknown : ℤ := 6 - opp_revealed_cards.length
    if n_unknown ≤ 0 then 0
    else
      let N : ℤ := 52 - known.length
      if N ≤ 0 then 0
      else
        let total_support := deck_support_total claim.qstate
        let support_in_known : ℤ := support_in_cards known claim.qstate
        let K := max 0 (min (total_support - support_in_known) N)
        hypergeom_p_geq N K n_unknown remaining_needed

/-- Both agents fetch the opponent's evidence with
`pub.revealed.get(opp, {}).values()`.  The environment stores the
per-player evidence as a Python *list* (`PublicState.revealed` maps a
player id to a list of cards), and a Python list has no `.values`
attribute, so the call raises `AttributeError` for every value the
argument may take; the raised exception is modelled as `none`. -/
def pyListValues (_l : List Card) : Option (List Card) := none

/-- `_prob_claim_true` (ToM0) / `_prob_claim_true_my_view` (ToM1) as
invoked on an environment-built observation: extract the opponent's
revealed evidence (which raises, see `pyListValues`), then run the
hypergeometric computation. -/
def prob_claim_true_my_view (obs : Observation) (claim : Claim) : Option ℚ := do
  let opp := 1 - obs.my_id
  let opp_revealed_cards ← pyListValues (obs.public.revealed.get opp)
  pure (probClaimTrueCore obs.my_hand opp_revealed_cards claim)

/-- The reveal tuple both agents build:
`tuple(i for i, card in enumerate(my_hand) if card == HUP or card.value == q.value)`. -/
def revealIdxs (my_hand : List Card) (q : QState) : List ℤ :=
  (my_hand.enum.filter (fun p => p.2 == Card.HUP || p.2.value == q.value)).map
    (fun p => (p.1 : ℤ))

/-- `RoundMemory` dataclass from `memory.py`. -/
structure RoundMemory where
  opponent_doubted : Bool
  opponent_evidence_revealed : ℕ
  opponent_last_claim : Option Claim
  opponent_last_claim_was_true : Option Bool
deriving DecidableEq, Repr

/-- The best-so-far selection loop shared by the agents' candidate
scans: fold over the candidates, keeping `(best, best_score)` starting
from `(None, -1e9)` and replacing it whenever `score > best_score`;
`none` propagates the exception raised while scoring a candidate. -/
def bestScan (cands : List Claim) (score : Claim → Option ℚ) :
    Option (Option Claim × ℚ) :=
  cands.foldlM
    (fun acc c => do
      let s ← score c
      if acc.2 < s then pure (some c, s) else pure acc)
    ((none : Option Claim), -(1000000000 : ℚ))

/-- The stronger-claim grid both agents enumerate when responding:
quantities `1..12` times the three categories, filtered by
`is_stronger · current`. -/
def strongerGrid (current : Claim) : List Claim :=
  (((List.range 12).map (fun i => (i : ℤ) + 1)).flatMap
    (fun qty => [QState.DEAD, QState.ALIVE, QState.EMPTY].map
      (fun q => Claim.mk qty q))).filter (fun c => is_stronger c current)

/-- An opening-candidate grid: quantities `1..hi` times the three
categories (`hi = 6` for ToM0, `hi = 7` for ToM1). -/
def openGrid (hi : ℕ) : List Claim :=
  ((List.range hi).map (fun i => (i : ℤ) + 1)).flatMap
    (fun qty => [QState.DEAD, QState.ALIVE, QState.EMPTY].map
      (fun q => Claim.mk qty q))

/-- `ToM0MemoryAgent.act` (the agent's only mutable field relevant to a
single `act` call is `last_memory`); `none` models a raised exception. -/
def tom0_act (last_memory : Option RoundMemory) (obs : Observation) : Option Action :=
  let pub := obs.public
  let my_hand := obs.my_hand
  let conservative : Bool :=
    match last_memory with
    | some m => m.opponent_doubted
    | none => false
  let doubt_threshold : ℚ := if conservative then 55/100 else 45/100
  match pub.current_claim with
  | none => do
    let best ← bestScan (openGrid 6)
      (fun c => do
        let p ← prob_claim_true_my_view obs c
        pure (p - (2/100) * (c.qty : ℚ)))
    let b ← best.1
    let reveal := revealIdxs my_hand b.qstate
    pure (Action.makeClaim b (if ¬ conservative then reveal else []))
  | some current => do
    let p_true ← prob_claim_true_my_view obs current
    if p_true < doubt_threshold then pure Action.doubt
    else
      let best ← bestScan (strongerGrid current)
        (fun c => do
          let p ← prob_claim_true_my_view obs c
          let jump_penalty : ℚ :=
            if current.qty ≤ c.qty then (3/100) * ((c.qty : ℚ) - (current.qty : ℚ))
            else 1/100
          let size_penalty : ℚ := (if conservative then 3/100 else 2/100) * (c.qty : ℚ)
          pure (p - jump_penalty - size_penalty))
      match best.1 with
      | none => pure Action.doubt
      | some b =>
        if best.2 < (if conservative then 10/100 else 5/100) then pure Action.doubt
        else
          let reveal := revealIdxs my_hand b.qstate
          pure (Action.makeClaim b (if ¬ conservative then reveal else []))

/-- The mutable trait/fallback fields of `ToM1Agent`. -/
structure ToM1State where
  opponent_is_conservative : Bool
  opponent_bluffiness : ℚ
  fallback_rounds_left : ℕ
  used_fallback_this_round : Bool
  opp_doubted_last_round : Bool
  opp_doubted_two_rounds_ago : Bool
  fallback_actions_taken : ℕ
  fallback_rounds_started : ℕ
  fallback_trigger_events : ℕ
deriving DecidableEq, Repr

/-- `ToM1Agent._predict_opponent_doubt_prob`. -/
def predict_opponent_doubt_prob (st : ToM1State) (obs : Observation) (claim : Claim) :
    Option ℚ := do
  let p_true ← prob_claim_true_my_view obs claim
  let base : ℚ := 45/100 + (if st.opponent_is_conservative then 15/100 else 0)
    - (20/100) * st.opponent_bluffiness
  let risk_adj := 60/100 - p_true
  let p_doubt := base + risk_adj
  pure (max (5/100) (min (95/100) p_doubt))

/-- `ToM1Agent._act_like_tom0`. -/
def tom1_act_like_tom0 (obs : Observation) : Option Action :=
  let pub := obs.public
  let doubt_threshold : ℚ := 52/100
  match pub.current_claim with
  | none => do
    let best ← bestScan (openGrid 7)
      (fun c => do
        let p ← prob_claim_true_my_view obs c
        pure (p - (2/100) * (c.qty : ℚ)))
    let b ← best.1
    pure (Action.makeClaim b [])
  | some current => do
    let p_true_current ← prob_claim_true_my_view obs current
    if p_true_current < doubt_threshold then pure Action.doubt
    else
      let base_strength := (claim_strength current).1
      let best ← bestScan (strongerGrid current)
        (fun c => do
          let p ← prob_claim_true_my_view obs c
          let gap : ℚ := ((claim_strength c).1 : ℚ) - (base_strength : ℚ)
          pure (p - (15/1000) * gap - (2/100) * (c.qty : ℚ)))
      match best.1 with
      | none => pure Action.doubt
      | some b =>
        if best.2 < 8/100 then pure Action.doubt
        else pure (Action.makeClaim b [])

/-- `ToM1Agent.act`: returns the updated agent state together with the
chosen action; `none` models a raised exception. -/
def tom1_act (st0 : ToM1State) (obs : Observation) : Option (ToM1State × Action) :=
  let pub := obs.public
  let st1 :=
    if pub.current_claim = none then { st0 with used_fallback_this_round := false }
    else st0
  if 0 < st1.fallback_rounds_left then
    let st2 :=
      { st1 with
        fallback_rounds_started :=
          if pub.current_claim = none then st1.fallback_rounds_started + 1
          else st1.fallback_rounds_started
        fallback_actions_taken := st1.fallback_actions_taken + 1
        used_fallback_this_round := true }
    (tom1_act_like_tom0 obs).map (fun a => (st2, a))
  else
    let my_hand := obs.my_hand
    match pub.current_claim with
    | none =>
      (do
        let best ← bestScan (openGrid 7)
          (fun c => do
            let p ← prob_claim_true_my_view obs c
            pure (p - (2/100) * (c.qty : ℚ)))
        let b ← best.1
        let reveal := revealIdxs my_hand b.qstate
        pure (st1, Action.makeClaim b reveal))
    | some current =>
      (do
        let p_true_current ← prob_claim_true_my_view obs current
        let accept_threshold : ℚ := 50/100 + (5/100) * st1.opponent_bluffiness
          - (if st1.opponent_is_conservative then 3/100 else 0)
        if p_true_current < accept_threshold then pure (st1, Action.doubt)
        else
          let best ← bestScan (strongerGrid current)
            (fun c => do
              let p_true ← prob_claim_true_my_view obs c
              let p_doubt ← predict_opponent_doubt_prob st1 obs c
              let immediate_ev := p_doubt * p_true
              let strength_gap : ℚ :=
                ((claim_strength c).1 : ℚ) - ((claim_strength current).1 : ℚ)
              let continuation_bonus := (1 - p_doubt) * (p_true - (15/1000) * strength_gap)
              pure (immediate_ev + continuation_bonus))
          match best.1 with
          | none => pure (st1, Action.doubt)
          | some b =>
            if best.2 < 5/100 then pure (st1, Action.doubt)
            else
              let reveal := revealIdxs my_hand b.qstate
              pure (st1, Action.makeClaim b reveal))

/-- `ToM1Agent.__init__`. -/
def tom1_init : ToM1State :=
  { opponent_is_conservative := false
    opponent_bluffiness := 0
    fallback_rounds_left := 0
    used_fallback_this_round := false
    opp_doubted_last_round := false
    opp_doubted_two_rounds_ago := false
    fallback_actions_taken := 0
    fallback_rounds_started := 0
    fallback_trigger_events := 0 }

/-! ## Specification-side helper definitions -/

/-- The cards the reveal loop actually appends for a request list: an
index whose card already occurs (by value) in the claimant's public
evidence contributes nothing, every other index contributes its card. -/
def newlyRevealed (hand already : List Card) (idxs : List ℤ) : List Card :=
  idxs.filterMap fun idx =>
    let c := hand.getD idx.toNat Card.HUP
    if c ∈ already then none else some c

/-- Number of claim events in a history. -/
def claimEvents (h : List PublicEvent) : ℕ :=
  (h.filter (fun e => e.kind == "claim")).length

/-- The turn invariant of a live round: the player to move is the
round's starting player displaced once per accepted claim. -/
def turnInv (env : EnvState) : Prop :=
  ∀ pub, env.public = some pub →
    pub.turn = (pub.round_idx + claimEvents pub.history) % 2

/-! ## Concrete fixtures for counterexamples and witnesses -/

/-- The unshuffled deck of `make_deck` (20/20/8/4). -/
def deck0 : List Card :=
  List.replicate 20 .ALIVE ++ List.replicate 20 .DEAD ++
  List.replicate 8 .EMPTY ++ List.replicate 4 .HUP

/-- A freshly reset 20-round match dealt from the unshuffled deck. -/
def env0 : EnvState := reset_match (initEnv 20) deck0

/-- The observation `env0` hands player `0` (six `ALIVE` cards, empty
public state). -/
def obs0 : Observation :=
  { my_id := 0
    my_hand := List.replicate 6 .ALIVE
    public :=
      { current_claim := none
        revealed := ⟨[], []⟩
        turn := 0
        round_idx := 0
        history := [] } }

/-- A deal for the reveal counterexample: player `0` holds two `DEAD`
cards at positions `0` and `1`. -/
def deckA : List Card :=
  [.DEAD, .DEAD, .ALIVE, .ALIVE, .EMPTY, .HUP,
   .ALIVE, .ALIVE, .ALIVE, .DEAD, .DEAD, .EMPTY]

/-- Round 0 of a 20-round match dealt from `deckA`. -/
def envA : EnvState := reset_match (initEnv 20) deckA

/-- Player `0` opens with `(1, DEAD)` revealing hand position `0`. -/
def envB : EnvState := (step envA [] 0 (Action.makeClaim ⟨1, .DEAD⟩ [0])).1

/-- Player `1` raises to `(2, DEAD)` revealing nothing. -/
def envC : EnvState := (step envB [] 1 (Action.makeClaim ⟨2, .DEAD⟩ [])).1

/-- Player `0` raises to `(3, DEAD)` requesting hand position `1`,
which was never revealed before and holds a supporting `DEAD` card. -/
def stepD : EnvState × Except String (Option ℕ × Bool) :=
  step envC [] 0 (Action.makeClaim ⟨3, .DEAD⟩ [1])

/-! ## Characterisation lemmas for `step` -/

example : check_claim_is_true ⟨5, .ALIVE⟩
    [[.ALIVE, .ALIVE, .ALIVE, .DEAD], [.ALIVE, .HUP, .HUP, .EMPTY]] = true := by decide

example : check_claim_is_true ⟨7, .ALIVE⟩
    [[.ALIVE, .ALIVE, .ALIVE, .DEAD], [.ALIVE, .HUP, .HUP, .EMPTY]] = false := by decide

example : is_stronger ⟨2, .EMPTY⟩ ⟨4, .ALIVE⟩ = true := by decide

example : is_stronger ⟨2, .EMPTY⟩ ⟨5, .DEAD⟩ = false := by decide


theorem step_error_eq {env : EnvState} {d : List Card} {pid : ℕ} {a : Action}
    {env' : EnvState} {msg : String}
    (h : step env d pid a = (env', Except.error msg)) : env' = env := by
  unfold step at h
  repeat' split at h
  all_goals try (simp only [] at h; split_ifs at h)
  all_goals simp_all [Prod.mk.injEq]

theorem step_makeClaim_run (env : EnvState) (d : List Card) (pid : ℕ) (claim : Claim)
    (idxs : List ℤ) (pub : PublicState) (hpub : env.public = some pub)
    (hturn : pid = pub.turn)
    (hstrong : ∀ cur, pub.current_claim = some cur → is_stronger claim cur = true) :
    step env d pid (Action.makeClaim claim idxs) =
      match revealLoop (env.hands.get pid) (pub.revealed.get pid) claim.qstate.value idxs with
      | Except.error msg => (env, Except.error msg)
      | Except.ok cs =>
        ({ env with public := some (
            { pub with
              history := pub.history ++
                [{ pid := pid, kind := "claim", claim := some claim,
                   revealed_count := cs.length }],
              revealed := pub.revealed.put pid (pub.revealed.get pid ++ cs),
              current_claim := some claim,
              turn := 1 - pid }) }, Except.ok (none, false)) := by
  have hns : (match pub.current_claim with
      | some cur => ! is_stronger claim cur
      | none => false) = false := by
    cases hc : pub.current_claim with
    | none => rfl
    | some cur => simp [hstrong cur hc]
  unfold step
  rw [hpub]
  simp only [hturn, ne_eq, not_true_eq_false, if_false, hns, Bool.false_eq_true]

theorem pair_get_put_same {α : Type} (m : Pair α) (i : ℕ) (v : α) :
    (m.put i v).get i = v := by
  by_cases hi : i = 0 <;> simp [Pair.put, Pair.get, hi]

theorem pair_get_put_other {α : Type} (m : Pair α) (i j : ℕ) (v : α)
    (hi : i ≤ 1) (hj : j ≤ 1) (hij : i ≠ j) : (m.put i v).get j = m.get j := by
  interval_cases i <;> interval_cases j <;> simp_all [Pair.put, Pair.get]

theorem newlyRevealed_cons (hand already : List Card) (idx : ℤ) (rest : List ℤ) :
    newlyRevealed hand already (idx :: rest) =
      (if hand.getD idx.toNat Card.HUP ∈ already then newlyRevealed hand already rest
       else hand.getD idx.toNat Card.HUP :: newlyRevealed hand already rest) := by
  unfold newlyRevealed
  rw [List.filterMap_cons]
  simp only []
  by_cases hm : hand.getD idx.toNat Card.HUP ∈ already
  · rw [if_pos hm, if_pos hm]
  · rw [if_neg hm, if_neg hm]

theorem revealLoop_ok_eq {hand already : List Card} {target : String}
    {idxs : List ℤ} {cs : List Card}
    (h : revealLoop hand already target idxs = Except.ok cs) :
    cs = newlyRevealed hand already idxs := by
  induction idxs generalizing cs with
  | nil =>
    unfold revealLoop at h
    injection h with h
    simp [newlyRevealed, h.symm]
  | cons idx rest ih =>
    unfold revealLoop at h
    by_cases hb : idx < 0 ∨ (hand.length : ℤ) ≤ idx
    · rw [if_pos hb] at h; cases h
    · rw [if_neg hb] at h
      simp only [] at h
      by_cases hm : hand.getD idx.toNat Card.HUP ∈ already
      · rw [if_pos hm] at h
        rw [newlyRevealed_cons, if_pos hm]
        exact ih h
      · rw [if_neg hm] at h
        by_cases hs : ¬(hand.getD idx.toNat Card.HUP = Card.HUP ∨
            (hand.getD idx.toNat Card.HUP).value = target)
        · rw [if_pos hs] at h; cases h
        · rw [if_neg hs] at h
          rcases hrec : revealLoop hand already target rest with msg | cs'
          · rw [hrec] at h; cases h
          · rw [hrec] at h
            injection h with h
            rw [newlyRevealed_cons, if_neg hm, ← h, ih hrec]

theorem revealLoop_out_of_range {hand already : List Card} {target : String}
    {idxs : List ℤ} {idx : ℤ} (hmem : idx ∈ idxs)
    (hbad : idx < 0 ∨ (hand.length : ℤ) ≤ idx) :
    ∃ msg, revealLoop hand already target idxs = Except.error msg := by
  induction idxs with
  | nil => cases hmem
  | cons a rest ih =>
    rcases List.mem_cons.mp hmem with rfl | hmem'
    · unfold revealLoop
      rw [if_pos hbad]
      exact ⟨_, rfl⟩
    · unfold revealLoop
      by_cases hb : a < 0 ∨ (hand.length : ℤ) ≤ a
      · rw [if_pos hb]; exact ⟨_, rfl⟩
      · rw [if_neg hb]
        simp only []
        by_cases hm : hand.getD a.toNat Card.HUP ∈ already
        · rw [if_pos hm]; exact ih hmem'
        · rw [if_neg hm]
          by_cases hs : ¬(hand.getD a.toNat Card.HUP = Card.HUP ∨
              (hand.getD a.toNat Card.HUP).value = target)
          · rw [if_pos hs]; exact ⟨_, rfl⟩
          · rw [if_neg hs]
            obtain ⟨msg, hmsg⟩ := ih hmem'
            rw [hmsg]
            exact ⟨msg, rfl⟩

theorem revealLoop_nonsupport {hand already : List Card} {target : String}
    {idxs : List ℤ} {idx : ℤ} (hmem : idx ∈ idxs)
    (hgood : 0 ≤ idx ∧ idx < (hand.length : ℤ))
    (hnm : hand.getD idx.toNat Card.HUP ∉ already)
    (hns : ¬(hand.getD idx.toNat Card.HUP = Card.HUP ∨
        (hand.getD idx.toNat Card.HUP).value = target)) :
    ∃ msg, revealLoop hand already target idxs = Except.error msg := by
  induction idxs with
  | nil => cases hmem
  | cons a rest ih =>
    rcases List.mem_cons.mp hmem with rfl | hmem'
    · unfold revealLoop
      rw [if_neg (by omega)]
      simp only []
      rw [if_neg hnm, if_pos hns]
      exact ⟨_, rfl⟩
    · unfold revealLoop
      by_cases hb : a < 0 ∨ (hand.length : ℤ) ≤ a
      · rw [if_pos hb]; exact ⟨_, rfl⟩
      · rw [if_neg hb]
        simp only []
        by_cases hm : hand.getD a.toNat Card.HUP ∈ already
        · rw [if_pos hm]; exact ih hmem'
        · rw [if_neg hm]
          by_cases hs : ¬(hand.getD a.toNat Card.HUP = Card.HUP ∨
              (hand.getD a.toNat Card.HUP).value = target)
          · rw [if_pos hs]; exact ⟨_, rfl⟩
          · rw [if_neg hs]
            obtain ⟨msg, hmsg⟩ := ih hmem'
            rw [hmsg]
            exact ⟨msg, rfl⟩

theorem newlyRevealed_count_of_mem {hand already : List Card} {idxs : List ℤ}
    {c : Card} (hc : c ∈ already) :
    (newlyRevealed hand already idxs).count c = 0 := by
  induction idxs with
  | nil => simp [newlyRevealed]
  | cons a rest ih =>
    rw [newlyRevealed_cons]
    by_cases hm : hand.getD a.toNat Card.HUP ∈ already
    · rw [if_pos hm]; exact ih
    · rw [if_neg hm, List.count_cons]
      have hne : ¬(hand.getD a.toNat Card.HUP = c) := fun he => hm (he ▸ hc)
      rw [ih]
      simpa using hne

theorem step_doubt_run (env : EnvState) (d : List Card) (pid : ℕ)
    (pub : PublicState) (claim : Claim) (hpub : env.public = some pub)
    (hturn : pid = pub.turn) (hclaim : pub.current_claim = some claim) :
    step env d pid Action.doubt =
      (let pub1 : PublicState :=
        { pub with history := pub.history ++
            [{ pid := pid, kind := "doubt", claim := some claim, revealed_count := 0 }] }
       let truth := check_claim_is_true claim [env.hands.p0, env.hands.p1]
       let winner := if truth then 1 - pid else pid
       let env2 : EnvState :=
        { env with
          public := some pub1,
          scores := env.scores.put winner (env.scores.get winner + 1),
          last_round_hands := some env.hands,
          last_round_public := some pub1 }
       if env.rounds_per_match ≤ pub.round_idx + 1 then
         (env2, Except.ok (some winner, true))
       else
         (reset_round env2 d (pub.round_idx + 1) ((pub.round_idx + 1) % 2),
          Except.ok (some winner, false))) := by
  unfold step
  rw [hpub]
  simp only [hturn, ne_eq, not_true_eq_false, if_false, hclaim]
  rfl



/-! ## Rules lemmas (C5, C6) -/

theorem is_stronger_iff (a b : Claim) :
    is_stronger a b = true ↔
      ((claim_strength b).1 < (claim_strength a).1 ∨
       ((claim_strength a).1 = (claim_strength b).1 ∧
        (claim_strength b).2 < (claim_strength a).2)) := by
  simp [is_stronger, tupGt]

theorem claim_strength_inj {a b : Claim}
    (h : claim_strength a = claim_strength b) : a = b := by
  cases a with
  | mk qa sa =>
    cases b with
    | mk qb sb =>
      cases sa <;> cases sb <;>
        simp_all [claim_strength, Prod.ext_iff]

theorem countP_add_countP (p1 p2 p3 : Card → Bool)
    (hp : ∀ c, (if p1 c then 1 else 0) + (if p2 c then 1 else 0)
        = (if p3 c then (1 : ℕ) else 0)) (l : List Card) :
    l.countP p1 + l.countP p2 = l.countP p3 := by
  induction l with
  | nil => rfl
  | cons c t ih =>
    simp only [List.countP_cons]
    have := hp c
    omega

theorem countP_support_split (q : QState) (hand : List Card) :
    hand.countP (fun card => !(card == Card.HUP) && card.value == q.value)
      + hand.countP (fun card => card == Card.HUP)
    = hand.countP (fun card => card == claimCard q || card == Card.HUP) := by
  refine countP_add_countP _ _ _ (fun c => ?_) hand
  cases q <;> cases c <;> decide

theorem check_claim_support_sum (q : QState) (hs : List (List Card)) :
    (hs.map (fun hand =>
        hand.countP (fun card => !(card == Card.HUP) && card.value == q.value))).sum
      + (hs.map (fun hand => hand.countP (fun card => card == Card.HUP))).sum
    = specSupport q hs := by
  induction hs with
  | nil => rfl
  | cons hand t ih =>
    simp only [List.map_cons, List.sum_cons, specSupport] at ih ⊢
    rw [← ih, ← countP_support_split q hand]
    omega

/-- **C5**: `claim_strength` induces a strict total order on claims:
`is_stronger` is irreflexive and transitive, any two distinct claims are
comparable in exactly one direction, the `EMPTY` category doubles its
stated quantity (tiers `DEAD = 0 < ALIVE = 1 < EMPTY = 2`), and the
comparison is lexicographic: effective value first, tie broken by tier. -/
theorem claim_strength_strict_total_order :
    (∀ a : Claim, is_stronger a a = false) ∧
    (∀ a b c : Claim, is_stronger a b = true → is_stronger b c = true →
      is_stronger a c = true) ∧
    (∀ a b : Claim, a ≠ b →
      (is_stronger a b = true ∧ is_stronger b a = false) ∨
      (is_stronger a b = false ∧ is_stronger b a = true)) ∧
    (∀ q : ℤ, claim_strength ⟨q, QState.EMPTY⟩ = (2 * q, 2) ∧
      claim_strength ⟨q, QState.ALIVE⟩ = (q, 1) ∧
      claim_strength ⟨q, QState.DEAD⟩ = (q, 0)) ∧
    (∀ a b : Claim, is_stronger a b = true ↔
      ((claim_strength b).1 < (claim_strength a).1 ∨
       ((claim_strength a).1 = (claim_strength b).1 ∧
        (claim_strength b).2 < (claim_strength a).2))) := by
  refine ⟨?_, ?_, ?_, fun q => ⟨rfl, rfl, rfl⟩, is_stronger_iff⟩
  · intro a
    cases h : is_stronger a a with
    | false => rfl
    | true =>
      exfalso
      rcases (is_stronger_iff a a).mp h with h1 | ⟨h1, h2⟩ <;> omega
  · intro a b c hab hbc
    rw [is_stronger_iff] at hab hbc ⊢
    omega
  · intro a b hab
    have hst : ¬(claim_strength a = claim_strength b) :=
      fun h => hab (claim_strength_inj h)
    rw [Prod.ext_iff] at hst
    cases h1 : is_stronger a b with
    | true =>
      cases h2 : is_stronger b a with
      | false => exact Or.inl ⟨rfl, rfl⟩
      | true =>
        exfalso
        have g1 := (is_stronger_iff a b).mp h1
        have g2 := (is_stronger_iff b a).mp h2
        omega
    | false =>
      cases h2 : is_stronger b a with
      | true => exact Or.inr ⟨rfl, rfl⟩
      | false =>
        exfalso
        have n1 : ¬((claim_strength b).1 < (claim_strength a).1 ∨
            ((claim_strength a).1 = (claim_strength b).1 ∧
             (claim_strength b).2 < (claim_strength a).2)) := by
          intro hg
          have hh := (is_stronger_iff a b).mpr hg
          rw [h1] at hh
          cases hh
        have n2 : ¬((claim_strength a).1 < (claim_strength b).1 ∨
            ((claim_strength b).1 = (claim_strength a).1 ∧
             (claim_strength a).2 < (claim_strength b).2)) := by
          intro hg
          have hh := (is_stronger_iff b a).mpr hg
          rw [h2] at hh
          cases hh
        omega

/-- Witness for C5 at a concrete pair of distinct claims. -/
theorem claim_strength_strict_total_order_witness :
    (is_stronger ⟨3, QState.ALIVE⟩ ⟨3, QState.DEAD⟩ = true ∧
     is_stronger ⟨3, QState.DEAD⟩ ⟨3, QState.ALIVE⟩ = false) ∨
    (is_stronger ⟨3, QState.ALIVE⟩ ⟨3, QState.DEAD⟩ = false ∧
     is_stronger ⟨3, QState.DEAD⟩ ⟨3, QState.ALIVE⟩ = true) :=
  claim_strength_strict_total_order.2.2.1 ⟨3, QState.ALIVE⟩ ⟨3, QState.DEAD⟩ (by decide)

/-- **C6**: `check_claim_is_true` holds exactly when the number of cards
matching the claimed category plus the number of wildcards across both
hands reaches the claimed quantity; including the spec example: quantity
5 over hands with 3 + 1 matching cards and 2 wildcards is true
(3 + 1 + 2 = 6 ≥ 5), quantity 7 over the same hands is false. -/
theorem check_claim_is_true_counts_support :
    (∀ (claim : Claim) (all_hands : List (List Card)),
      check_claim_is_true claim all_hands = true ↔
        claim.qty ≤ (specSupport claim.qstate all_hands : ℤ)) ∧
    check_claim_is_true ⟨5, QState.ALIVE⟩
      [[.ALIVE, .ALIVE, .ALIVE, .DEAD, .DEAD, .DEAD],
       [.ALIVE, .HUP, .HUP, .DEAD, .EMPTY, .EMPTY]] = true ∧
    check_claim_is_true ⟨7, QState.ALIVE⟩
      [[.ALIVE, .ALIVE, .ALIVE, .DEAD, .DEAD, .DEAD],
       [.ALIVE, .HUP, .HUP, .DEAD, .EMPTY, .EMPTY]] = false := by
  refine ⟨fun claim all_hands => ?_, by decide, by decide⟩
  unfold check_claim_is_true
  simp only [decide_eq_true_eq, ge_iff_le]
  rw [← check_claim_support_sum claim.qstate all_hands]
  push_cast [List.map_map]
  simp only [Function.comp_def]

/-! ## Hypergeometric lemmas (C7) -/

theorem nCk_eq_choose {n k : ℤ} (hn : 0 ≤ n) (hk : 0 ≤ k) :
    nCk n k = Nat.choose n.toNat k.toNat := by
  unfold nCk
  split_ifs with h
  · rcases h with h | h
    · omega
    · exact (Nat.choose_eq_zero_of_lt (by omega)).symm
  · rfl

theorem hyper_nonneg (N K n kmin : ℤ) : 0 ≤ hypergeom_p_geq N K n kmin := by
  unfold hypergeom_p_geq
  simp only []
  split_ifs
  · norm_num
  · norm_num
  · norm_num
  · exact Finset.sum_nonneg fun k _ => by positivity

theorem hyper_le_one (N K n kmin : ℤ) (hK0 : 0 ≤ K) (hKN : K ≤ N) :
    hypergeom_p_geq N K n kmin ≤ 1 := by
  unfold hypergeom_p_geq
  simp only []
  split_ifs with h1 h2 h3 <;> try norm_num
  have hn0 : 0 ≤ n := by omega
  have hdpos : 0 < (nCk N n : ℚ) := by
    have := Nat.pos_of_ne_zero h3
    exact_mod_cast this
  rw [← Finset.sum_div, div_le_one hdpos]
  have hnat : ∑ k ∈ Finset.Icc kmin.toNat n.toNat,
      nCk K (k : ℤ) * nCk (N - K) (n - (k : ℤ)) ≤ nCk N n := by
    have hsum : ∀ k ∈ Finset.Icc kmin.toNat n.toNat,
        nCk K (k : ℤ) * nCk (N - K) (n - (k : ℤ))
          = Nat.choose K.toNat k * Nat.choose (N - K).toNat (n.toNat - k) := by
      intro k hk
      rw [Finset.mem_Icc] at hk
      have hkn : (k : ℤ) ≤ n := by omega
      have e1 : ((k : ℤ)).toNat = k := by omega
      have e2 : (n - (k : ℤ)).toNat = n.toNat - k := by omega
      rw [nCk_eq_choose hK0 (by positivity), nCk_eq_choose (by omega) (by omega),
        e1, e2]
    rw [Finset.sum_congr rfl hsum]
    have hN : N.toNat = K.toNat + (N - K).toNat := by omega
    have hvdm : nCk N n = ∑ k ∈ Finset.range (n.toNat + 1),
        Nat.choose K.toNat k * Nat.choose (N - K).toNat (n.toNat - k) := by
      rw [nCk_eq_choose (by omega) hn0, hN, Nat.add_choose_eq]
      rw [Finset.Nat.sum_antidiagonal_eq_sum_range_succ_mk]
    rw [hvdm]
    refine Finset.sum_le_sum_of_subset ?_
    intro k hk
    rw [Finset.mem_Icc] at hk
    rw [Finset.mem_range]
    omega
  calc (∑ k ∈ Finset.Icc kmin.toNat n.toNat,
          (nCk K (k : ℤ) : ℚ) * (nCk (N - K) (n - (k : ℤ)) : ℚ))
      = ((∑ k ∈ Finset.Icc kmin.toNat n.toNat,
          nCk K (k : ℤ) * nCk (N - K) (n - (k : ℤ)) : ℕ) : ℚ) := by
        push_cast
        rfl
    _ ≤ (nCk N n : ℚ) := by exact_mod_cast hnat

theorem hyper_antitone (N K n : ℤ) (hK0 : 0 ≤ K) (hKN : K ≤ N)
    {k1 k2 : ℤ} (h12 : k1 ≤ k2) :
    hypergeom_p_geq N K n k2 ≤ hypergeom_p_geq N K n k1 := by
  by_cases hk1 : k1 ≤ 0
  · have : hypergeom_p_geq N K n k1 = 1 := by
      unfold hypergeom_p_geq
      rw [if_pos hk1]
    rw [this]
    exact hyper_le_one N K n k2 hK0 hKN
  · by_cases hk2n : n < k2
    · have : hypergeom_p_geq N K n k2 = 0 := by
        unfold hypergeom_p_geq
        rw [if_neg (by omega), if_pos hk2n]
      rw [this]
      exact hyper_nonneg N K n k1
    · unfold hypergeom_p_geq
      rw [if_neg hk1, if_neg (by omega : ¬ k2 ≤ 0),
        if_neg (by omega : ¬ n < k1), if_neg hk2n]
      simp only []
      by_cases hd : nCk N n = 0
      · rw [if_pos hd, if_pos hd]
      · rw [if_neg hd, if_neg hd]
        refine Finset.sum_le_sum_of_subset_of_nonneg ?_ ?_
        · intro k hk
          rw [Finset.mem_Icc] at hk ⊢
          omega
        · intro k _ _
          positivity
/-- **C7**: the agents' claim-truth probability (the hypergeometric core
of `_prob_claim_true_my_view`, taking the agent's own hand and the
opponent's revealed evidence as known information) is exactly `1` when
the known support reaches the claimed quantity, exactly `0` when the
remaining needed count exceeds the opponent's unknown slots, and
monotonically non-increasing in the claimed quantity. -/
theorem prob_claim_true_hypergeometric_props :
    (∀ (my opp : List Card) (q : QState) (qty : ℤ),
      qty ≤ (support_in_cards (my ++ opp) q : ℤ) →
      probClaimTrueCore my opp ⟨qty, q⟩ = 1) ∧
    (∀ (my opp : List Card) (q : QState) (qty : ℤ),
      opp.length ≤ 6 →
      (6 : ℤ) - (opp.length : ℤ) < qty - (support_in_cards (my ++ opp) q : ℤ) →
      probClaimTrueCore my opp ⟨qty, q⟩ = 0) ∧
    (∀ (my opp : List Card) (q : QState) (qty1 qty2 : ℤ), qty1 ≤ qty2 →
      probClaimTrueCore my opp ⟨qty2, q⟩ ≤ probClaimTrueCore my opp ⟨qty1, q⟩) := by
  refine ⟨?_, ?_, ?_⟩
  · intro my opp q qty h
    unfold probClaimTrueCore
    simp only []
    rw [if_pos (by omega)]
  · intro my opp q qty hlen h
    unfold probClaimTrueCore
    simp only []
    rw [if_neg (by omega)]
    split_ifs with h2 h3
    · rfl
    · rfl
    · unfold hypergeom_p_geq
      rw [if_neg (by omega), if_pos (by omega)]
  · intro my opp q qty1 qty2 h12
    unfold probClaimTrueCore
    simp only []
    by_cases hA : qty2 - ((support_in_cards (my ++ opp) q : ℕ) : ℤ) ≤ 0
    · rw [if_pos hA, if_pos (by omega)]
    · rw [if_neg hA]
      by_cases hB : qty1 - ((support_in_cards (my ++ opp) q : ℕ) : ℤ) ≤ 0
      · rw [if_pos hB]
        split_ifs with h2 h3
        · norm_num
        · norm_num
        · exact hyper_le_one _ _ _ _ (le_max_left _ _) (by omega)
      · rw [if_neg hB]
        split_ifs with h2 h3
        · exact le_refl _
        · exact le_refl _
        · exact hyper_antitone _ _ _ (le_max_left _ _) (by omega) (by omega)

/-- Witness for C7 at concrete hands and quantities. -/
theorem prob_claim_true_hypergeometric_props_witness :
    probClaimTrueCore [Card.ALIVE, Card.ALIVE, Card.ALIVE] [] ⟨2, QState.ALIVE⟩ = 1 ∧
    probClaimTrueCore [] (List.replicate 6 Card.DEAD) ⟨7, QState.ALIVE⟩ = 0 ∧
    probClaimTrueCore [] [] ⟨9, QState.ALIVE⟩ ≤ probClaimTrueCore [] [] ⟨4, QState.ALIVE⟩ :=
  ⟨prob_claim_true_hypergeometric_props.1 _ _ _ _ (by decide),
   prob_claim_true_hypergeometric_props.2.1 _ _ _ _ (by decide) (by decide),
   prob_claim_true_hypergeometric_props.2.2 _ _ _ _ _ (by decide)⟩

/-! ## C1: the agents crash on the environment-built observation -/

/-- **C1** (refuted by the code): on the very first observation a match
produces, both `ToM0MemoryAgent.act` and `ToM1Agent.act` raise
(`AttributeError`): their probability computation calls `.values()` on
the opponent entry of `PublicState.revealed`, which the environment
builds as a plain list.  `none` is the embedded raised exception. -/
theorem tom_agents_act_raise_on_env_observation :
    envObs env0 0 = some obs0 ∧
    tom0_act none obs0 = none ∧
    tom1_act tom1_init obs0 = none ∧
    prob_claim_true_my_view obs0 ⟨3, QState.ALIVE⟩ = none :=
  ⟨rfl, rfl, rfl, rfl⟩

/-! ## C2: reveal skipping is by card value, not by hand position -/

/-- **C2 counterexample**: player `0` holds `DEAD` at positions `0` and
`1`; position `0` was revealed in an earlier claim, position `1` never
was.  The claim *as stated* requires the request for position `1` (a
supporting card at a not-yet-revealed position) to append its card and
be counted; the code instead skips it because a card of equal value is
already in the evidence list: the accepted claim logs `revealed_count
0` and appends nothing. -/
theorem reveal_skip_by_value_counterexample :
    (envA.hands.get 0).getD 1 Card.HUP = Card.DEAD ∧
    (envC.public.map fun p => p.revealed.get 0) = some [Card.DEAD] ∧
    (envC.public.map fun p => p.current_claim) = some (some ⟨2, QState.DEAD⟩) ∧
    (envC.public.map fun p => p.turn) = some 0 ∧
    stepD.2 = Except.ok (none, false) ∧
    (stepD.1.public.map fun p => p.revealed.get 0) = some [Card.DEAD] ∧
    (stepD.1.public.map fun p => p.history.map PublicEvent.revealed_count)
      = some [1, 0, 0] :=
  ⟨by decide, by decide, by decide, by decide, rfl, by decide, by decide⟩

/-- **C2 amended**: in an accepted `MakeClaim`, a requested index is
silently skipped exactly when a card of the *same value* as the card at
that position is already in the claimant's public evidence (positions
holding equal-valued cards are conflated); every other requested index
contributes its card once per occurrence; the logged `revealed_count`
equals the number of appended cards; and once a card value is in the
evidence list, further reveals contribute no additional copy of it. -/
theorem makeclaim_reveal_value_characterization :
    (∀ (env : EnvState) (d : List Card) (pid : ℕ) (claim : Claim) (idxs : List ℤ)
        (pub : PublicState) (env' : EnvState) (r : Option ℕ × Bool),
      env.public = some pub → pid = pub.turn →
      (∀ cur, pub.current_claim = some cur → is_stronger claim cur = true) →
      step env d pid (Action.makeClaim claim idxs) = (env', Except.ok r) →
      ∃ pub', env'.public = some pub' ∧
        pub'.revealed.get pid =
          pub.revealed.get pid ++
            newlyRevealed (env.hands.get pid) (pub.revealed.get pid) idxs ∧
        pub'.history = pub.history ++
          [{ pid := pid, kind := "claim", claim := some claim,
             revealed_count :=
               (newlyRevealed (env.hands.get pid) (pub.revealed.get pid) idxs).length }]) ∧
    (∀ (hand already : List Card) (idx : ℤ) (rest : List ℤ),
      (hand.getD idx.toNat Card.HUP ∈ already →
        newlyRevealed hand already (idx :: rest) = newlyRevealed hand already rest) ∧
      (hand.getD idx.toNat Card.HUP ∉ already →
        newlyRevealed hand already (idx :: rest) =
          hand.getD idx.toNat Card.HUP :: newlyRevealed hand already rest)) ∧
    (∀ (hand already : List Card) (idxs : List ℤ) (c : Card), c ∈ already →
      (newlyRevealed hand already idxs).count c = 0) := by
  refine ⟨?_, ?_, fun hand already idxs c hc => newlyRevealed_count_of_mem hc⟩
  · intro env d pid claim idxs pub env' r hpub hturn hstrong hstep
    rw [step_makeClaim_run env d pid claim idxs pub hpub hturn hstrong] at hstep
    rcases hloop : revealLoop (env.hands.get pid) (pub.revealed.get pid)
        claim.qstate.value idxs with msg | cs
    · rw [hloop] at hstep
      cases hstep
    · rw [hloop] at hstep
      have hcs := revealLoop_ok_eq hloop
      injection hstep with h1 h2
      subst h1
      refine ⟨_, rfl, ?_, ?_⟩
      · rw [pair_get_put_same, hcs]
      · rw [hcs]
  · intro hand already idx rest
    constructor
    · intro hm
      rw [newlyRevealed_cons, if_pos hm]
    · intro hm
      rw [newlyRevealed_cons, if_neg hm]

/-- Witness for the amended C2 at the concrete opening claim of the
counterexample's match. -/
theorem makeclaim_reveal_value_characterization_witness :
    ∃ pub', envB.public = some pub' ∧
      pub'.revealed.get 0 =
        Pair.get (⟨[], []⟩ : Pair (List Card)) 0 ++
          newlyRevealed (envA.hands.get 0) (Pair.get (⟨[], []⟩ : Pair (List Card)) 0) [0] ∧
      pub'.history = [] ++
        [{ pid := 0, kind := "claim", claim := some ⟨1, QState.DEAD⟩,
           revealed_count :=
             (newlyRevealed (envA.hands.get 0)
               (Pair.get (⟨[], []⟩ : Pair (List Card)) 0) [0]).length }] :=
  makeclaim_reveal_value_characterization.1 envA [] 0 ⟨1, QState.DEAD⟩ [0]
    { current_claim := none, revealed := ⟨[], []⟩, turn := 0, round_idx := 0, history := [] }
    envB (none, false) rfl rfl (by intro cur hcur; simp at hcur) rfl

/-! ## C3: rejected actions fail with an error and mutate nothing -/

/-- **C3**: every rejection — wrong turn, doubt with no claim,
non-stronger claim, out-of-range reveal index, non-supporting revealed
card, unrecognised action — surfaces as a synchronous error, and an
erroring `step` leaves the environment exactly as it was. -/
theorem step_rejection_no_partial_mutation :
    (∀ (env : EnvState) (d : List Card) (pid : ℕ) (a : Action) (env' : EnvState)
        (msg : String), step env d pid a = (env', Except.error msg) → env' = env) ∧
    (∀ env d pid a pub, env.public = some pub → pid ≠ pub.turn →
      ∃ msg, (step env d pid a).2 = Except.error msg) ∧
    (∀ env d pid pub, env.public = some pub → pid = pub.turn →
      pub.current_claim = none →
      ∃ msg, (step env d pid Action.doubt).2 = Except.error msg) ∧
    (∀ env d pid pub cur claim idxs, env.public = some pub → pid = pub.turn →
      pub.current_claim = some cur → is_stronger claim cur = false →
      (step env d pid (Action.makeClaim claim idxs)).2 =
        Except.error "Claim not stronger than current claim.") ∧
    (∀ env d pid pub claim idxs idx, env.public = some pub → pid = pub.turn →
      (∀ cur, pub.current_claim = some cur → is_stronger claim cur = true) →
      idx ∈ idxs → (idx < 0 ∨ ((env.hands.get pid).length : ℤ) ≤ idx) →
      ∃ msg, (step env d pid (Action.makeClaim claim idxs)).2 = Except.error msg) ∧
    (∀ env d pid pub claim idxs idx, env.public = some pub → pid = pub.turn →
      (∀ cur, pub.current_claim = some cur → is_stronger claim cur = true) →
      idx ∈ idxs → 0 ≤ idx → idx < ((env.hands.get pid).length : ℤ) →
      (env.hands.get pid).getD idx.toNat Card.HUP ∉ pub.revealed.get pid →
      ¬((env.hands.get pid).getD idx.toNat Card.HUP = Card.HUP ∨
        ((env.hands.get pid).getD idx.toNat Card.HUP).value = claim.qstate.value) →
      ∃ msg, (step env d pid (Action.makeClaim claim idxs)).2 = Except.error msg) ∧
    (∀ env d pid pub, env.public = some pub → pid = pub.turn →
      (step env d pid Action.other).2 = Except.error "Unknown action type.") := by
  refine ⟨fun env d pid a env' msg h => step_error_eq h, ?_, ?_, ?_, ?_, ?_, ?_⟩
  · intro env d pid a pub hpub ht
    unfold step
    rw [hpub]
    simp only []
    rw [if_pos ht]
    exact ⟨_, rfl⟩
  · intro env d pid pub hpub hturn hcc
    unfold step
    rw [hpub]
    simp only []
    rw [if_neg (fun hne => hne hturn)]
    simp only [hcc]
    exact ⟨_, rfl⟩
  · intro env d pid pub cur claim idxs hpub hturn hcur hstr
    unfold step
    rw [hpub]
    simp only []
    rw [if_neg (fun hne => hne hturn)]
    simp only [hcur, hstr]
    rfl
  · intro env d pid pub claim idxs idx hpub hturn hstrong hmem hbad
    rw [step_makeClaim_run env d pid claim idxs pub hpub hturn hstrong]
    obtain ⟨msg, hmsg⟩ := @revealLoop_out_of_range (env.hands.get pid)
      (pub.revealed.get pid) claim.qstate.value idxs idx hmem hbad
    rw [hmsg]
    exact ⟨msg, rfl⟩
  · intro env d pid pub claim idxs idx hpub hturn hstrong hmem h0 hlt hnm hns
    rw [step_makeClaim_run env d pid claim idxs pub hpub hturn hstrong]
    obtain ⟨msg, hmsg⟩ := revealLoop_nonsupport hmem ⟨h0, hlt⟩ hnm hns
    rw [hmsg]
    exact ⟨msg, rfl⟩
  · intro env d pid pub hpub hturn
    unfold step
    rw [hpub]
    simp only []
    rw [if_neg (fun hne => hne hturn)]

/-- Witness for C3: doubting out of turn in the freshly reset match is
rejected. -/
theorem step_rejection_no_partial_mutation_witness :
    ∃ msg, (step env0 [] 1 Action.doubt).2 = Except.error msg :=
  step_rejection_no_partial_mutation.2.1 env0 [] 1 Action.doubt
    { current_claim := none, revealed := ⟨[], []⟩, turn := 0, round_idx := 0, history := [] }
    rfl (by decide)

/-! ## C4: doubt adjudication, scoring, termination -/

/-- **C4**: a `Doubt` with a current claim adjudicates with both full
hands: the claimant (`1 - pid`) wins iff the claim is true, exactly the
winner's score grows by one, the round ends, and the match-done flag is
set exactly when the finished round was the last one; and every accepted
`MakeClaim` installs its claim as current, so a legal claim sequence
followed by a `Doubt` always ends the round with one score increment. -/
theorem doubt_adjudicates_scores_and_terminates :
    (∀ (env : EnvState) (d : List Card) (pid : ℕ) (pub : PublicState) (claim : Claim),
      env.public = some pub → pid = pub.turn → pid ≤ 1 →
      pub.current_claim = some claim →
      ∃ w, w = (if check_claim_is_true claim [env.hands.p0, env.hands.p1]
          then 1 - pid else pid) ∧
        (step env d pid Action.doubt).2 =
          Except.ok (some w, decide (env.rounds_per_match ≤ pub.round_idx + 1)) ∧
        (step env d pid Action.doubt).1.scores.get w = env.scores.get w + 1 ∧
        (step env d pid Action.doubt).1.scores.get (1 - w)
          = env.scores.get (1 - w) ∧
        (¬ env.rounds_per_match ≤ pub.round_idx + 1 →
          ∃ pub', (step env d pid Action.doubt).1.public = some pub' ∧
            pub'.round_idx = pub.round_idx + 1 ∧ pub'.current_claim = none)) ∧
    (∀ env d pid claim idxs env' r,
      step env d pid (Action.makeClaim claim idxs) = (env', Except.ok r) →
      ∃ pub', env'.public = some pub' ∧ pub'.current_claim = some claim) := by
  constructor
  · intro env d pid pub claim hpub hturn hpid hclaim
    refine ⟨_, rfl, ?_, ?_, ?_, ?_⟩ <;>
      rw [step_doubt_run env d pid pub claim hpub hturn hclaim] <;>
      simp only [] <;>
      by_cases hdone : env.rounds_per_match ≤ pub.round_idx + 1
    · rw [if_pos hdone]
      simp [hdone]
    · rw [if_neg hdone]
      simp [hdone]
    · rw [if_pos hdone]
      simp only []
      rw [pair_get_put_same]
    · rw [if_neg hdone]
      simp only [reset_round]
      rw [pair_get_put_same]
    · rw [if_pos hdone]
      simp only []
      rw [pair_get_put_other]
      · split_ifs <;> omega
      · split_ifs <;> omega
      · split_ifs <;> omega
    · rw [if_neg hdone]
      simp only [reset_round]
      rw [pair_get_put_other]
      · split_ifs <;> omega
      · split_ifs <;> omega
      · split_ifs <;> omega
    · rw [if_pos hdone]
      intro hnd
      exact absurd hdone hnd
    · rw [if_neg hdone]
      intro hnd
      exact ⟨_, rfl, rfl, rfl⟩
  · intro env d pid claim idxs env' r hstep
    rcases hpub : env.public with _ | pub
    · unfold step at hstep
      rw [hpub] at hstep
      simp only [Prod.mk.injEq] at hstep
      exact absurd hstep.2 (by simp)
    · by_cases hturn : pid = pub.turn
      · by_cases hstrong : ∀ cur, pub.current_claim = some cur →
            is_stronger claim cur = true
        · rw [step_makeClaim_run env d pid claim idxs pub hpub hturn hstrong] at hstep
          rcases hloop : revealLoop (env.hands.get pid) (pub.revealed.get pid)
              claim.qstate.value idxs with msg | cs
          · rw [hloop] at hstep
            simp only [Prod.mk.injEq] at hstep
            exact absurd hstep.2 (by simp)
          · rw [hloop] at hstep
            simp only [Prod.mk.injEq] at hstep
            obtain ⟨he, _⟩ := hstep
            rw [← he]
            exact ⟨_, rfl, rfl⟩
        · push_neg at hstrong
          obtain ⟨cur, hcur, hns⟩ := hstrong
          have hns2 : is_stronger claim cur = false := by
            cases h : is_stronger claim cur
            · rfl
            · exact absurd h hns
          unfold step at hstep
          rw [hpub] at hstep
          simp only [] at hstep
          rw [if_neg (fun hne => hne hturn)] at hstep
          simp [hcur, hns2] at hstep
      · unfold step at hstep
        rw [hpub] at hstep
        simp only [] at hstep
        rw [if_pos hturn] at hstep
        simp only [Prod.mk.injEq] at hstep
        exact absurd hstep.2 (by simp)

/-- Witness for C4: doubting the opening claim of the `deckA` match. -/
theorem doubt_adjudicates_scores_and_terminates_witness :
    ∃ w, w = (if check_claim_is_true ⟨1, QState.DEAD⟩ [envB.hands.p0, envB.hands.p1]
        then 1 - (1 : ℕ) else 1) ∧
      (step envB [] 1 Action.doubt).2 =
        Except.ok (some w, decide (envB.rounds_per_match ≤ 0 + 1)) ∧
      (step envB [] 1 Action.doubt).1.scores.get w = envB.scores.get w + 1 ∧
      (step envB [] 1 Action.doubt).1.scores.get (1 - w)
        = envB.scores.get (1 - w) ∧
      (¬ envB.rounds_per_match ≤ 0 + 1 →
        ∃ pub', (step envB [] 1 Action.doubt).1.public = some pub' ∧
          pub'.round_idx = 0 + 1 ∧ pub'.current_claim = none) :=
  doubt_adjudicates_scores_and_terminates.1 envB [] 1
    { current_claim := some ⟨1, QState.DEAD⟩,
      revealed := ⟨[Card.DEAD], []⟩, turn := 1, round_idx := 0,
      history := [⟨0, "claim", some ⟨1, QState.DEAD⟩, 1⟩] }
    ⟨1, QState.DEAD⟩ rfl rfl (by decide) rfl

/-! ## C8: round snapshot ordering and immutability -/

/-- **C8**: a round-ending `Doubt` stores, by value, the finished
round's public state (with the doubt event) and both hands into the
snapshot fields, while the live state is redealt; `MakeClaim` steps,
rejected steps and `reset_round` never touch the snapshot; and
`last_round_obs` reproduces exactly the snapshot. -/
theorem round_snapshot_frame_properties :
    (∀ env d pid claim idxs env' r,
      step env d pid (Action.makeClaim claim idxs) = (env', r) →
      env'.last_round_public = env.last_round_public ∧
      env'.last_round_hands = env.last_round_hands) ∧
    (∀ env d pid a env' msg, step env d pid a = (env', Except.error msg) →
      env'.last_round_public = env.last_round_public ∧
      env'.last_round_hands = env.last_round_hands) ∧
    (∀ env d pid pub claim, env.public = some pub → pid = pub.turn →
      pub.current_claim = some claim →
      (step env d pid Action.doubt).1.last_round_public =
        some { pub with history := pub.history ++
          [{ pid := pid, kind := "doubt", claim := some claim, revealed_count := 0 }] } ∧
      (step env d pid Action.doubt).1.last_round_hands = some env.hands) ∧
    (∀ env deck r sp,
      (reset_round env deck r sp).last_round_public = env.last_round_public ∧
      (reset_round env deck r sp).last_round_hands = env.last_round_hands) ∧
    (∀ env pid pub hands, env.last_round_public = some pub →
      env.last_round_hands = some hands →
      last_round_obs env pid =
        some { my_id := pid, my_hand := hands.get pid, public := pub }) := by
  refine ⟨?_, ?_, ?_, fun env deck r sp => ⟨rfl, rfl⟩, ?_⟩
  · intro env d pid claim idxs env' r hstep
    rcases hpub : env.public with _ | pub
    · unfold step at hstep
      rw [hpub] at hstep
      simp only [Prod.mk.injEq] at hstep
      rw [← hstep.1]
      exact ⟨rfl, rfl⟩
    · by_cases hturn : pid = pub.turn
      · by_cases hstrong : ∀ cur, pub.current_claim = some cur →
            is_stronger claim cur = true
        · rw [step_makeClaim_run env d pid claim idxs pub hpub hturn hstrong] at hstep
          rcases hloop : revealLoop (env.hands.get pid) (pub.revealed.get pid)
              claim.qstate.value idxs with msg | cs <;> rw [hloop] at hstep <;>
            simp only [Prod.mk.injEq] at hstep <;> rw [← hstep.1] <;> exact ⟨rfl, rfl⟩
        · push_neg at hstrong
          obtain ⟨cur, hcur, hns⟩ := hstrong
          have hns2 : is_stronger claim cur = false := by
            cases h : is_stronger claim cur
            · rfl
            · exact absurd h hns
          unfold step at hstep
          rw [hpub] at hstep
          simp only [] at hstep
          rw [if_neg (fun hne => hne hturn)] at hstep
          simp only [hcur, hns2, Bool.not_false, if_pos, Prod.mk.injEq] at hstep
          rw [← hstep.1]
          exact ⟨rfl, rfl⟩
      · unfold step at hstep
        rw [hpub] at hstep
        simp only [] at hstep
        rw [if_pos hturn] at hstep
        simp only [Prod.mk.injEq] at hstep
        rw [← hstep.1]
        exact ⟨rfl, rfl⟩
  · intro env d pid a env' msg hstep
    rw [step_error_eq hstep]
    exact ⟨rfl, rfl⟩
  · intro env d pid pub claim hpub hturn hclaim
    rw [step_doubt_run env d pid pub claim hpub hturn hclaim]
    simp only []
    by_cases hdone : env.rounds_per_match ≤ pub.round_idx + 1
    · rw [if_pos hdone]
      exact ⟨rfl, rfl⟩
    · rw [if_neg hdone]
      exact ⟨rfl, rfl⟩
  · intro env pid pub hands hp hh
    unfold last_round_obs
    rw [hp, hh]

/-- Witness for C8: the doubt ending round 0 of the `deckA` match
snapshots that round's public state and hands. -/
theorem round_snapshot_frame_properties_witness :
    (step envB [] 1 Action.doubt).1.last_round_public =
      some { current_claim := some ⟨1, QState.DEAD⟩,
             revealed := ⟨[Card.DEAD], []⟩, turn := 1, round_idx := 0,
             history := [⟨0, "claim", some ⟨1, QState.DEAD⟩, 1⟩,
               ⟨1, "doubt", some ⟨1, QState.DEAD⟩, 0⟩] } ∧
    (step envB [] 1 Action.doubt).1.last_round_hands = some envB.hands :=
  (round_snapshot_frame_properties.2.2.1 envB [] 1
    { current_claim := some ⟨1, QState.DEAD⟩,
      revealed := ⟨[Card.DEAD], []⟩, turn := 1, round_idx := 0,
      history := [⟨0, "claim", some ⟨1, QState.DEAD⟩, 1⟩] }
    ⟨1, QState.DEAD⟩ rfl rfl rfl)

/-! ## C10: observations depend only on own hand and public state -/

/-- **C10**: the observation for player `pid` is a function of that
player's hand and the public state only — two environments agreeing on
those, whatever the opponent's concealed hand, induce identical
observations — and an observation carries nothing beyond the player id,
the player's own hand and the public state. -/
theorem observation_noninterference :
    (∀ (env1 env2 : EnvState) (pid : ℕ),
      env1.hands.get pid = env2.hands.get pid → env1.public = env2.public →
      envObs env1 pid = envObs env2 pid) ∧
    (∀ (env : EnvState) (pid : ℕ) (o : Observation),
      envObs env pid = some o →
      o.my_id = pid ∧ o.my_hand = env.hands.get pid ∧ env.public = some o.public) := by
  constructor
  · intro env1 env2 pid hh hp
    unfold envObs
    rw [hh, hp]
  · intro env pid o h
    unfold envObs at h
    rcases hpub : env.public with _ | pub <;> rw [hpub] at h
    · cases h
    · simp only [Option.map_some'] at h
      injection h with h
      rw [← h]
      exact ⟨rfl, rfl, rfl⟩

/-- Witness for C10: two environments with identical player-0 hand and
public state but different concealed opponent hands give player 0 the
same observation. -/
theorem observation_noninterference_witness :
    envObs env0 0 =
      envObs { env0 with hands := ⟨env0.hands.p0, List.replicate 6 Card.EMPTY⟩ } 0 :=
  observation_noninterference.1 env0
    { env0 with hands := ⟨env0.hands.p0, List.replicate 6 Card.EMPTY⟩ } 0 rfl rfl

/-! ## C9: turn alternation and round-start parity -/

theorem claimEvents_append (h : List PublicEvent) (e : PublicEvent) :
    claimEvents (h ++ [e]) = claimEvents h + (if e.kind == "claim" then 1 else 0) := by
  unfold claimEvents
  rw [List.filter_append, List.length_append]
  congr 1
  cases hk : (e.kind == "claim") <;> simp [List.filter, hk]

theorem claimEvents_append_claim (h : List PublicEvent) (p : ℕ) (c : Option Claim)
    (n : ℕ) : claimEvents (h ++ [⟨p, "claim", c, n⟩]) = claimEvents h + 1 := by
  rw [claimEvents_append]
  rfl

theorem claimEvents_append_doubt (h : List PublicEvent) (p : ℕ) (c : Option Claim)
    (n : ℕ) : claimEvents (h ++ [⟨p, "doubt", c, n⟩]) = claimEvents h := by
  rw [claimEvents_append]
  rfl

theorem turnInv_step (env : EnvState) (d : List Card) (pid : ℕ) (a : Action)
    (h : turnInv env) : turnInv (step env d pid a).1 := by
  rcases hpub : env.public with _ | pub
  · unfold step
    rw [hpub]
    exact h
  · unfold step
    rw [hpub]
    simp only []
    by_cases ht : pid ≠ pub.turn
    · rw [if_pos ht]
      exact h
    · rw [if_neg ht]
      push_neg at ht
      cases a with
      | other => exact h
      | doubt =>
        rcases hcc : pub.current_claim with _ | claim
        · exact h
        · simp only []
          by_cases hdone : env.rounds_per_match ≤ pub.round_idx + 1
          · rw [if_pos hdone]
            intro p hp
            injection hp with hp
            rw [← hp]
            rw [claimEvents_append_doubt]
            exact h pub hpub
          · rw [if_neg hdone]
            intro p hp
            injection hp with hp
            rw [← hp]
            simp [claimEvents]
      | makeClaim claim idxs =>
        simp only []
        by_cases hns : (match pub.current_claim with
            | some cur => ! is_stronger claim cur
            | none => false) = true
        · rw [if_pos hns]
          exact h
        · rw [if_neg hns]
          rcases hloop : revealLoop (env.hands.get pid) (pub.revealed.get pid)
              claim.qstate.value idxs with msg | cs
          · exact h
          · intro p hp
            injection hp with hp
            rw [← hp]
            simp only []
            rw [claimEvents_append_claim]
            have hinv := h pub hpub
            rw [ht, hinv]
            omega

theorem reachable_turnInv {env : EnvState} (h : Reachable env) : turnInv env := by
  induction h with
  | init rpm deck =>
    intro pub hp
    injection hp with hp
    rw [← hp]
    rfl
  | next env d pid a hr ih =>
    exact turnInv_step _ _ _ _ ih

/-- **C9**: every accepted `MakeClaim` flips the turn to the other
player within the same round; an accepted `Doubt` never hands the turn
back — the match ends or a fresh round `r+1` starts with player
`(r+1) % 2`; `reset_match` starts round `0` with player `0`; and in
every reachable state the player to move is the round's parity-starting
player displaced once per accepted claim, so a round with index `r`
begins (empty history) with player `r % 2`. -/
theorem turn_alternation_and_round_parity :
    (∀ (env : EnvState) (d : List Card) (pid : ℕ) (claim : Claim) (idxs : List ℤ)
        (env' : EnvState) (r : Option ℕ × Bool) (pub : PublicState),
      env.public = some pub →
      step env d pid (Action.makeClaim claim idxs) = (env', Except.ok r) →
      ∃ pub', env'.public = some pub' ∧ pub'.turn = 1 - pid ∧
        pub'.round_idx = pub.round_idx) ∧
    (∀ env d pid pub claim, env.public = some pub → pid = pub.turn →
      pub.current_claim = some claim →
      (∃ w, (step env d pid Action.doubt).2 = Except.ok (some w, true)) ∨
      (∃ pub', (step env d pid Action.doubt).1.public = some pub' ∧
        pub'.round_idx = pub.round_idx + 1 ∧ pub'.turn = pub'.round_idx % 2 ∧
        pub'.history = [] ∧ pub'.current_claim = none)) ∧
    (∀ rpm deck, ∃ pub0, (reset_match (initEnv rpm) deck).public = some pub0 ∧
      pub0.round_idx = 0 ∧ pub0.turn = 0) ∧
    (∀ env, Reachable env → ∀ pub, env.public = some pub →
      pub.turn = (pub.round_idx + claimEvents pub.history) % 2 ∧
      (pub.history = [] → pub.turn = pub.round_idx % 2)) := by
  refine ⟨?_, ?_, fun rpm deck => ⟨_, rfl, rfl, rfl⟩, ?_⟩
  · intro env d pid claim idxs env' r pub hpub hstep
    by_cases hturn : pid = pub.turn
    · by_cases hstrong : ∀ cur, pub.current_claim = some cur →
          is_stronger claim cur = true
      · rw [step_makeClaim_run env d pid claim idxs pub hpub hturn hstrong] at hstep
        rcases hloop : revealLoop (env.hands.get pid) (pub.revealed.get pid)
            claim.qstate.value idxs with msg | cs <;> rw [hloop] at hstep
        · simp only [Prod.mk.injEq] at hstep
          exact absurd hstep.2 (by simp)
        · simp only [Prod.mk.injEq] at hstep
          obtain ⟨he, _⟩ := hstep
          rw [← he]
          exact ⟨_, rfl, rfl, rfl⟩
      · push_neg at hstrong
        obtain ⟨cur, hcur, hns⟩ := hstrong
        have hns2 : is_stronger claim cur = false := by
          cases hb : is_stronger claim cur
          · rfl
          · exact absurd hb hns
        unfold step at hstep
        rw [hpub] at hstep
        simp only [] at hstep
        rw [if_neg (fun hne => hne hturn)] at hstep
        simp [hcur, hns2] at hstep
    · unfold step at hstep
      rw [hpub] at hstep
      simp only [] at hstep
      rw [if_pos hturn] at hstep
      simp only [Prod.mk.injEq] at hstep
      exact absurd hstep.2 (by simp)
  · intro env d pid pub claim hpub hturn hclaim
    rw [step_doubt_run env d pid pub claim hpub hturn hclaim]
    simp only []
    by_cases hdone : env.rounds_per_match ≤ pub.round_idx + 1
    · rw [if_pos hdone]
      exact Or.inl ⟨_, rfl⟩
    · rw [if_neg hdone]
      exact Or.inr ⟨_, rfl, rfl, rfl, rfl, rfl⟩
  · intro env hreach pub hpub
    have hinv := reachable_turnInv hreach pub hpub
    refine ⟨hinv, fun hhist => ?_⟩
    rw [hinv, hhist]
    rfl

/-- Witness for C9: the accepted opening claim of the `deckA` match
hands the turn to player `1` without changing the round index. -/
theorem turn_alternation_and_round_parity_witness :
    ∃ pub', envB.public = some pub' ∧ pub'.turn = 1 - 0 ∧ pub'.round_idx = 0 :=
  turn_alternation_and_round_parity.1 envA [] 0 ⟨1, QState.DEAD⟩ [0] envB (none, false)
    { current_claim := none, revealed := ⟨[], []⟩, turn := 0, round_idx := 0, history := [] }
    rfl rfl

end SchCats
